import Mathlib

/-!
Verification of the duplicate-image detection core of dupfinder-tg.

The development shallowly embeds the program: fingerprints are 64-bit
values (`Int` holding an i64, compared by bit pattern), the corpus is a
list of entries in insertion order, and the message handlers of
`src/bot.rs` become pure functions over that state.  The nearest-match
search and the insert operation live in the repository's `database`
module, whose source is not present; they are modelled from the spec
(§4.2, §4.3) and marked as such.  Everything else is translated from
`src/bot.rs`.
-/

/-- Two's-complement 64-bit pattern of an i64 value: the representative in
`[0, 2^64)`. -/
def bits64 (x : Int) : Nat :=
  (x % (2 ^ 64 : Int)).toNat

/-- Hamming distance between the 64-bit patterns of two i64 fingerprints:
number of bit positions below 64 where they differ (spec §4.3: popcount of
XOR over a 64-bit fingerprint). -/
def hamming64 (a b : Int) : Nat :=
  (List.range 64).countP (fun i => (bits64 a).testBit i != (bits64 b).testBit i)

theorem hamming64_le_64 (a b : Int) : hamming64 a b ≤ 64 := by
  have h := List.countP_le_length
    (l := List.range 64)
    (p := fun i => (bits64 a).testBit i != (bits64 b).testBit i)
  simpa [hamming64] using h

/-- Corpus record (spec §3): conversation scope, originating message id,
fingerprint and a diagnostic label.  Insertion order is the list order of
the corpus. -/
structure CorpusEntry where
  conversation_id : Int
  message_id : Int
  fingerprint : Int
  display_label : String
deriving DecidableEq, Repr

/-- Result row of the nearest-match search: matched message and its
Hamming distance from the query. -/
structure MatchRes where
  message_id : Int
  distance : Nat
deriving DecidableEq, Repr

/-- Modelled from the spec: the scan of §4.2/§4.3 restricted to one
conversation, with the optional exclusion of one message id applied.  The
`database` module holding the real query is not under src/. -/
def eligible (corpus : List CorpusEntry) (conv : Int) (excl : Option Int) :
    List CorpusEntry :=
  corpus.filter (fun e =>
    decide (e.conversation_id = conv) && !(excl == some e.message_id))

/-- Modelled from the spec: minimum-distance selection of §4.3 over a scan
in insertion order, with ties going to the earliest-inserted entry.  The
`database` module holding the real query is not under src/. -/
def bestOf (q : Int) : List CorpusEntry → Option MatchRes
  | [] => none
  | e :: rest =>
    let d := hamming64 q e.fingerprint
    match bestOf q rest with
    | none => some ⟨e.message_id, d⟩
    | some m => if d ≤ m.distance then some ⟨e.message_id, d⟩ else some m

/-- Modelled from the spec: `find_closest` of §4.3 (the repository calls it
`find_closest_match`; its source, `src/database.rs`, is not under src/).
Scans the conversation's corpus, excludes the given message id, picks the
minimum-distance entry with earliest-inserted tie-break, and gates the
result by `max_distance` when one is given. -/
def find_closest (corpus : List CorpusEntry) (conv : Int) (q : Int)
    (excl : Option Int) (maxDist : Option Nat) : Option MatchRes :=
  match bestOf q (eligible corpus conv excl) with
  | none => none
  | some m =>
    match maxDist with
    | none => some m
    | some t => if m.distance ≤ t then some m else none

/-- Modelled from the spec: `save_image` of the `database` module (not under
src/) appends one entry for the new image; insertion order is list order.
Argument order follows the call sites in `src/bot.rs` and
`src/importer.rs`: pool, chat id, title, message id, hash. -/
def save_image (corpus : List CorpusEntry) (chat_id : Int) (title : String)
    (message_id : Int) (hash : Int) : List CorpusEntry :=
  corpus ++ [⟨chat_id, message_id, hash, title⟩]

/-- Distances from the query to every eligible entry, in insertion order. -/
def distList (corpus : List CorpusEntry) (conv : Int) (q : Int)
    (excl : Option Int) : List Nat :=
  (eligible corpus conv excl).map (fun e => hamming64 q e.fingerprint)

theorem bestOf_eq_none_iff (q : Int) (l : List CorpusEntry) :
    bestOf q l = none ↔ l = [] := by
  cases l with
  | nil => simp [bestOf]
  | cons e rest =>
    simp only [bestOf]
    cases h : bestOf q rest with
    | none => simp
    | some m =>
      by_cases hd : hamming64 q e.fingerprint ≤ m.distance <;> simp [hd]

theorem bestOf_is_min (q : Int) (l : List CorpusEntry) (m : MatchRes)
    (h : bestOf q l = some m) :
    m.distance ∈ l.map (fun e => hamming64 q e.fingerprint) ∧
      ∀ e ∈ l, m.distance ≤ hamming64 q e.fingerprint := by
  induction l generalizing m with
  | nil => simp [bestOf] at h
  | cons e rest ih =>
    simp only [bestOf] at h
    cases hr : bestOf q rest with
    | none =>
      rw [hr] at h
      simp only [Option.some.injEq] at h
      subst h
      have hrest : rest = [] := (bestOf_eq_none_iff q rest).mp hr
      subst hrest
      simp
    | some m' =>
      rw [hr] at h
      by_cases hd : hamming64 q e.fingerprint ≤ m'.distance
      · simp only [hd, if_pos, Option.some.injEq] at h
        subst h
        have hmin := ih m' hr
        refine ⟨by simp, ?_⟩
        intro x hx
        rcases List.mem_cons.mp hx with hx | hx
        · subst hx; exact le_refl _
        · exact le_trans hd (hmin.2 x hx)
      · simp only [hd, if_neg, not_false_iff, Option.some.injEq] at h
        subst h
        have hmin := ih _ hr
        refine ⟨by simpa using Or.inr (by simpa using hmin.1), ?_⟩
        intro x hx
        rcases List.mem_cons.mp hx with hx | hx
        · subst hx; exact le_of_lt (lt_of_not_le hd)
        · exact hmin.2 x hx

theorem bestOf_earliest (q : Int) (l : List CorpusEntry) (m : MatchRes)
    (h : bestOf q l = some m) :
    ∃ e, l.find? (fun x => decide (hamming64 q x.fingerprint ≤ m.distance))
        = some e ∧
      e.message_id = m.message_id ∧ hamming64 q e.fingerprint = m.distance := by
  induction l generalizing m with
  | nil => simp [bestOf] at h
  | cons e rest ih =>
    simp only [bestOf] at h
    cases hr : bestOf q rest with
    | none =>
      rw [hr] at h
      simp only [Option.some.injEq] at h
      subst h
      exact ⟨e, List.find?_cons_of_pos _ (by simp), rfl, rfl⟩
    | some m' =>
      rw [hr] at h
      by_cases hd : hamming64 q e.fingerprint ≤ m'.distance
      · simp only [hd, if_pos, Option.some.injEq] at h
        subst h
        exact ⟨e, List.find?_cons_of_pos _ (by simp), rfl, rfl⟩
      · simp only [hd, if_neg, not_false_iff, Option.some.injEq] at h
        subst h
        obtain ⟨e', hfind, hmsg, hdist⟩ := ih _ hr
        refine ⟨e', ?_, hmsg, hdist⟩
        rw [List.find?_cons_of_neg _ (by simpa using hd)]
        exact hfind

theorem find_closest_some_bestOf (corpus : List CorpusEntry) (conv q : Int)
    (excl : Option Int) (maxDist : Option Nat) (m : MatchRes)
    (h : find_closest corpus conv q excl maxDist = some m) :
    bestOf q (eligible corpus conv excl) = some m := by
  unfold find_closest at h
  cases hb : bestOf q (eligible corpus conv excl) with
  | none => rw [hb] at h; simp at h
  | some m' =>
    rw [hb] at h
    cases maxDist with
    | none => simpa using h
    | some t =>
      by_cases ht : m'.distance ≤ t
      · simp only [ht, if_pos] at h; simpa using h
      · simp [ht] at h

/-- Big-endian u64 from a list of bytes, as in `i64::from_be_bytes`
(`src/bot.rs` line 197); each element is masked to its u8 range. -/
def u64_from_be_bytes (bs : List Nat) : Nat :=
  bs.foldl (fun acc b => acc * 256 + b % 256) 0

/-- Reinterpretation of a u64 bit pattern as an i64 (two's complement), the
`as`-free counterpart of the byte reinterpretation in `calculate_hash`. -/
def i64_of_u64 (n : Nat) : Int :=
  if n % 2 ^ 64 < 2 ^ 63 then ((n % 2 ^ 64 : Nat) : Int)
  else ((n % 2 ^ 64 : Nat) : Int) - 2 ^ 64

/-- Failure of `calculate_hash` (`src/bot.rs` lines 186-200): either the
image library rejected the bytes (the two `?` operators), or the perceptual
hash was not exactly 8 bytes wide, which the source treats as a fatal
internal invariant violation. -/
inductive HashError (E : Type) where
  | image (e : E)
  | invalidWidth
deriving DecidableEq

/-- Embedding of `calculate_hash` (`src/bot.rs` lines 186-200).  The image
library is external: format sniffing plus decoding is the pure function
`decodeImage`, and the perceptual hasher built by
`HasherConfig::new().to_hasher()` is the pure function `hashImage` giving
the hash bytes.  The function then requires exactly 8 hash bytes and
reinterprets them big-endian as an i64. -/
def calculate_hash {Img E : Type} (decodeImage : List Nat → Except E Img)
    (hashImage : Img → List Nat) (image : List Nat) :
    Except (HashError E) Int :=
  match decodeImage image with
  | .error e => .error (.image e)
  | .ok img =>
    let hb := hashImage img
    if hb.length = 8 then .ok (i64_of_u64 (u64_from_be_bytes hb))
    else .error .invalidWidth

/-- Outcome of one run of the automatic path of `message_handler`
(`src/bot.rs` lines 84-135), as observable from outside. -/
inductive HandlerOutcome where
  | notAnImage
  | duplicate (distance : Nat) (message_id : Int)
  | newImage
deriving DecidableEq

/-- Embedding of the automatic path of `message_handler` (`src/bot.rs`
lines 84-135) in an execution whose downloads and database calls succeed:
hash the incoming bytes (a decode failure makes `get_img_hash` return
`None`, lines 170-181, and the handler returns `Ok(())`, lines 84-89);
query `find_closest_match` with the configured threshold and no exclusion
(lines 91-98); on a match report the duplicate and leave the corpus alone
(lines 107-120), otherwise save the new image (lines 121-131).  The
`Except Unit` result is the handler's `ResponseResult`: `.error` would be
the propagated failure, and the hash-width panic aborts rather than
returns, modelled as `.error`. -/
def message_handler_auto {Img E : Type} (decodeImage : List Nat → Except E Img)
    (hashImage : Img → List Nat) (corpus : List CorpusEntry)
    (chat_id : Int) (message_id : Int) (title : String) (threshold : Nat)
    (bytes : List Nat) : Except Unit (HandlerOutcome × List CorpusEntry) :=
  match calculate_hash decodeImage hashImage bytes with
  | .error (.image _) => .ok (.notAnImage, corpus)
  | .error .invalidWidth => .error ()
  | .ok hash =>
    match find_closest corpus chat_id hash none (some threshold) with
    | some closest_match =>
      .ok (.duplicate closest_match.distance closest_match.message_id, corpus)
    | none => .ok (.newImage, save_image corpus chat_id title message_id hash)

/-- Embedding of the manual path of `message_handler` (`src/bot.rs` lines
44-82), triggered by a "duplicate?" reply: hash the referenced message's
bytes (a decode failure yields no result, lines 47-52), then query
`find_closest_match` with `max_distance = 64` (the maximum over 64-bit
fingerprints, line 58) excluding the referenced message (line 59).  Every
branch leaves the corpus unchanged. -/
def message_handler_manual {Img E : Type}
    (decodeImage : List Nat → Except E Img) (hashImage : Img → List Nat)
    (corpus : List CorpusEntry) (chat_id : Int) (ref_message_id : Int)
    (ref_bytes : List Nat) :
    Except Unit (Option MatchRes × List CorpusEntry) :=
  match calculate_hash decodeImage hashImage ref_bytes with
  | .error (.image _) => .ok (none, corpus)
  | .error .invalidWidth => .error ()
  | .ok hash =>
    .ok (find_closest corpus chat_id hash (some ref_message_id) (some 64), corpus)

/-- Database operations the automatic path can attempt, in order. -/
inductive DbOp where
  | find
  | save
deriving DecidableEq

/-- Control flow of the automatic path (`src/bot.rs` lines 91-132) around
the two fallible corpus operations, with their results injected.  The
returned trace lists each corpus operation attempted, in order; on an
`Err` the source logs the error and returns `Ok(())`, dropping the message
without any further attempt (lines 101-104 and 126-129). -/
def auto_flow_db (findRes : Except Unit (Option MatchRes))
    (saveRes : Except Unit Unit) : Option HandlerOutcome × List DbOp :=
  match findRes with
  | .error _ => (none, [DbOp.find])
  | .ok (some m) => (some (.duplicate m.distance m.message_id), [DbOp.find])
  | .ok none =>
    match saveRes with
    | .error _ => (none, [DbOp.find, DbOp.save])
    | .ok _ => (some .newImage, [DbOp.find, DbOp.save])

/-- Fuel-driven base-10 logarithm: `ilog10Aux fuel n` counts how many times
`n` can be divided by 10 before dropping below 10, provided `fuel ≥ n`. -/
def ilog10Aux : Nat → Nat → Nat
  | 0, _ => 0
  | fuel + 1, n => if n < 10 then 0 else ilog10Aux fuel (n / 10) + 1

/-- Executable counterpart of Rust's `u64::ilog10` (number of decimal
digits minus one); 64 units of fuel cover every u64, whose decimal
expansion has at most 20 digits.  Agreement with `Nat.log 10` is proved
below for all `n < 10 ^ 64`. -/
def ilog10 (n : Nat) : Nat :=
  ilog10Aux 64 n

/-- Embedding of `convert_telegram_chat_id` (`src/bot.rs` lines 203-233):
ids above `-100` pass through; otherwise take the unsigned absolute value,
isolate the three highest-order decimal digits with a power-of-ten divisor
(u64 arithmetic, hence the `% 2 ^ 64`), and when they are `100` return the
remainder reinterpreted as an i64 (`as i64`), else the input. -/
def convert_telegram_chat_id (chat_id : Int) : Int :=
  if chat_id > -100 then chat_id
  else
    let abs := chat_id.natAbs
    let log := ilog10 abs
    let divisor := 10 ^ (log - 2) % 2 ^ 64
    if abs / divisor = 100 then i64_of_u64 (abs % divisor)
    else chat_id

/-- Guarded `ilog10`: `none` on zero, where Rust's `u64::ilog10` panics. -/
def checked_ilog10 (n : Nat) : Option Nat :=
  if n = 0 then none else some (ilog10 n)

/-- Guarded subtraction: `none` where Rust's unsigned `-` would panic. -/
def checked_sub (a b : Nat) : Option Nat :=
  if b ≤ a then some (a - b) else none

/-- Guarded `10u64.pow`: `none` where the result overflows a u64 (a panic
under Rust's debug profile). -/
def checked_pow10 (e : Nat) : Option Nat :=
  if 10 ^ e < 2 ^ 64 then some (10 ^ e) else none

/-- Guarded division: `none` on a zero divisor, where Rust panics. -/
def checked_div (a b : Nat) : Option Nat :=
  if b = 0 then none else some (a / b)

/-- Guarded remainder: `none` on a zero divisor, where Rust panics. -/
def checked_mod (a b : Nat) : Option Nat :=
  if b = 0 then none else some (a % b)

/-- Guarded u64-to-i64 cast: `none` where `as i64` would change the value
(the cast itself wraps rather than panics; the guard records losslessness). -/
def checked_cast_i64 (n : Nat) : Option Int :=
  if n < 2 ^ 63 then some (n : Int) else none

/-- Step-guarded rerun of `convert_telegram_chat_id`: every partial
operation of the source (`ilog10`, the `log - 2` subtraction, `10u64.pow`,
`/`, `%`, the final cast) is replaced by its guarded form, so a `some`
result certifies that no step panics or loses value. -/
def convert_telegram_chat_id_checked (chat_id : Int) : Option Int :=
  if chat_id > -100 then some chat_id
  else do
    let abs := chat_id.natAbs
    let log ← checked_ilog10 abs
    let e ← checked_sub log 2
    let divisor ← checked_pow10 e
    let q ← checked_div abs divisor
    if q = 100 then
      let r ← checked_mod abs divisor
      checked_cast_i64 r
    else
      some chat_id

/-- Number of decimal digits of a positive natural number. -/
def numDigits (n : Nat) : Nat :=
  ilog10 n + 1

/-- Modelled from the spec: `to_display_id` as worded in §4.5 — inputs
above `-100` are returned unchanged; otherwise, when the three
highest-order decimal digits of the absolute value equal `100`, the
remaining lower-order digits are returned as a non-negative integer, and
otherwise the input is returned unchanged. -/
def to_display_id_spec (id : Int) : Int :=
  if id > -100 then id
  else
    let n := id.natAbs
    let k := numDigits n
    if n / 10 ^ (k - 3) = 100 then ((n % 10 ^ (k - 3) : Nat) : Int)
    else id

theorem ilog10Aux_eq_log (fuel : Nat) :
    ∀ n : Nat, n < 10 ^ fuel → ilog10Aux fuel n = Nat.log 10 n := by
  induction fuel with
  | zero =>
    intro n hn
    have h0 : n = 0 := by simpa using hn
    subst h0
    simp [ilog10Aux]
  | succ fuel ih =>
    intro n hn
    simp only [ilog10Aux]
    by_cases h10 : n < 10
    · rw [if_pos h10, Nat.log_of_lt h10]
    · rw [if_neg h10]
      have hle : 10 ≤ n := le_of_not_lt h10
      have hdiv : n / 10 < 10 ^ fuel := by
        rw [Nat.div_lt_iff_lt_mul (by norm_num)]
        calc n < 10 ^ (fuel + 1) := hn
          _ = 10 ^ fuel * 10 := by ring
      rw [ih _ hdiv, Nat.log_of_one_lt_of_le (by norm_num) hle]

theorem ilog10_eq_log {n : Nat} (h : n < 10 ^ 64) : ilog10 n = Nat.log 10 n :=
  ilog10Aux_eq_log 64 n h

theorem ilog10_ge_two {n : Nat} (h : 100 ≤ n) (h64 : n < 10 ^ 64) :
    2 ≤ ilog10 n := by
  rw [ilog10_eq_log h64]
  exact Nat.le_log_of_pow_le (by norm_num) (by simpa using h)

theorem ilog10_le_18 {n : Nat} (h : n ≤ 2 ^ 63) : ilog10 n ≤ 18 := by
  have h64 : n < 10 ^ 64 := lt_of_le_of_lt h (by norm_num)
  rw [ilog10_eq_log h64]
  rcases Nat.eq_zero_or_pos n with h0 | h0
  · subst h0; simp
  · have hlt : n < 10 ^ 19 := lt_of_le_of_lt h (by norm_num)
    have := Nat.log_lt_of_lt_pow (by omega : n ≠ 0) hlt
    omega

theorem i64_of_u64_small {n : Nat} (h : n < 2 ^ 63) : i64_of_u64 n = (n : Int) := by
  have h64 : n < 2 ^ 64 := lt_trans h (by norm_num)
  unfold i64_of_u64
  rw [Nat.mod_eq_of_lt h64, if_pos h]

theorem natAbs_bounds {id : Int} (hlo : -(2 ^ 63) ≤ id) (hhi : id ≤ -100) :
    100 ≤ id.natAbs ∧ id.natAbs ≤ 2 ^ 63 := by
  omega

theorem convert_eq_spec {id : Int} (hlo : -(2 ^ 63) ≤ id) (hhi : id < 2 ^ 63) :
    convert_telegram_chat_id id = to_display_id_spec id := by
  by_cases hgt : id > -100
  · simp [convert_telegram_chat_id, to_display_id_spec, hgt]
  · have hle : id ≤ -100 := by omega
    obtain ⟨habs100, habs63⟩ := natAbs_bounds hlo hle
    have h64 : id.natAbs < 10 ^ 64 := lt_of_le_of_lt habs63 (by norm_num)
    have hl2 : 2 ≤ ilog10 id.natAbs := ilog10_ge_two habs100 h64
    have hl18 : ilog10 id.natAbs ≤ 18 := ilog10_le_18 habs63
    have hdvsmall : 10 ^ (ilog10 id.natAbs - 2) < 2 ^ 63 := by
      calc 10 ^ (ilog10 id.natAbs - 2) ≤ 10 ^ 16 :=
            Nat.pow_le_pow_right (by norm_num) (by omega)
        _ < 2 ^ 63 := by norm_num
    have hmod64 : 10 ^ (ilog10 id.natAbs - 2) % 2 ^ 64
        = 10 ^ (ilog10 id.natAbs - 2) :=
      Nat.mod_eq_of_lt (lt_trans hdvsmall (by norm_num))
    have hexp : numDigits id.natAbs - 3 = ilog10 id.natAbs - 2 := by
      unfold numDigits; omega
    simp only [convert_telegram_chat_id, to_display_id_spec, hgt, if_false,
      hmod64, hexp]
    by_cases hq : id.natAbs / 10 ^ (ilog10 id.natAbs - 2) = 100
    · rw [if_pos hq, if_pos hq]
      have hrlt : id.natAbs % 10 ^ (ilog10 id.natAbs - 2) < 2 ^ 63 :=
        lt_trans (Nat.mod_lt _ (Nat.pos_pow_of_pos _ (by norm_num))) hdvsmall
      rw [i64_of_u64_small hrlt]
    · rw [if_neg hq, if_neg hq]

theorem find_closest_some_of_exists (corpus : List CorpusEntry)
    (conv q : Int) (excl : Option Int) (t : Nat)
    (h : ∃ d ∈ distList corpus conv q excl, d ≤ t) :
    ∃ m : MatchRes, find_closest corpus conv q excl (some t) = some m ∧
      m.distance ∈ distList corpus conv q excl ∧
      (∀ d ∈ distList corpus conv q excl, m.distance ≤ d) ∧
      m.distance ≤ t := by
  obtain ⟨d, hd, hdt⟩ := h
  obtain ⟨e, he, hde⟩ := List.mem_map.mp hd
  cases hb : bestOf q (eligible corpus conv excl) with
  | none =>
    have : eligible corpus conv excl = [] := (bestOf_eq_none_iff q _).mp hb
    rw [this] at he
    simp at he
  | some m =>
    have hmin := bestOf_is_min q _ m hb
    have hmd : m.distance ≤ d := hde ▸ hmin.2 e he
    have hmt : m.distance ≤ t := le_trans hmd hdt
    refine ⟨m, ?_, hmin.1, ?_, hmt⟩
    · unfold find_closest
      rw [hb]
      simp [hmt]
    · intro x hx
      obtain ⟨e', he', hx'⟩ := List.mem_map.mp hx
      exact hx' ▸ hmin.2 e' he'

theorem find_closest_none_of_forall (corpus : List CorpusEntry)
    (conv q : Int) (excl : Option Int) (t : Nat)
    (h : ∀ d ∈ distList corpus conv q excl, t < d) :
    find_closest corpus conv q excl (some t) = none := by
  cases hb : bestOf q (eligible corpus conv excl) with
  | none => unfold find_closest; rw [hb]
  | some m =>
    have hmin := bestOf_is_min q _ m hb
    have : t < m.distance := h _ hmin.1
    unfold find_closest
    rw [hb]
    simp
    omega

/-- Claim C1: for every corpus, query and threshold `t`, `find_closest`
with `max_distance = t` returns `Some` exactly when the minimum Hamming
distance over the eligible entries (conversation scope, optional
message-id exclusion applied) is at most `t`, and the returned distance is
that true minimum: when it answers, the distance is a member of the
eligible distance list and a lower bound of it; when it answers `None`,
every eligible distance exceeds `t` (in particular an empty corpus yields
`None`). -/
theorem find_closest_threshold_correct (corpus : List CorpusEntry)
    (conv q : Int) (excl : Option Int) (t : Nat) :
    match find_closest corpus conv q excl (some t) with
    | some m => m.distance ∈ distList corpus conv q excl ∧
        (∀ d ∈ distList corpus conv q excl, m.distance ≤ d) ∧
        m.distance ≤ t
    | none => ∀ d ∈ distList corpus conv q excl, t < d := by
  cases hfc : find_closest corpus conv q excl (some t) with
  | none =>
    intro d hd
    by_contra hcon
    have hdt : d ≤ t := by omega
    obtain ⟨m, hm, _⟩ :=
      find_closest_some_of_exists corpus conv q excl t ⟨d, hd, hdt⟩
    rw [hfc] at hm
    exact Option.noConfusion hm
  | some m =>
    have hb := find_closest_some_bestOf corpus conv q excl (some t) m hfc
    have hmin := bestOf_is_min q _ m hb
    refine ⟨hmin.1, ?_, ?_⟩
    · intro d hd
      obtain ⟨e, he, hde⟩ := List.mem_map.mp hd
      exact hde ▸ hmin.2 e he
    · unfold find_closest at hfc
      rw [hb] at hfc
      by_cases ht : m.distance ≤ t
      · exact ht
      · simp [ht] at hfc

/-- Claim C1 witness: a two-entry corpus at threshold 5. -/
theorem find_closest_threshold_correct_witness :
    match find_closest ([⟨1, 10, 0, "a"⟩, ⟨1, 20, 3, "a"⟩] : List CorpusEntry)
        1 0 none (some 5) with
    | some m =>
        m.distance ∈ distList
            ([⟨1, 10, 0, "a"⟩, ⟨1, 20, 3, "a"⟩] : List CorpusEntry) 1 0 none ∧
        (∀ d ∈ distList
            ([⟨1, 10, 0, "a"⟩, ⟨1, 20, 3, "a"⟩] : List CorpusEntry) 1 0 none,
          m.distance ≤ d) ∧
        m.distance ≤ 5
    | none => ∀ d ∈ distList
          ([⟨1, 10, 0, "a"⟩, ⟨1, 20, 3, "a"⟩] : List CorpusEntry) 1 0 none,
        5 < d :=
  find_closest_threshold_correct
    ([⟨1, 10, 0, "a"⟩, ⟨1, 20, 3, "a"⟩] : List CorpusEntry) 1 0 none 5

/-- Claim C2: whenever `find_closest` returns a match, the returned entry
is the earliest-inserted one among those achieving the minimum distance —
the first eligible entry (in insertion order) whose distance is at most
the returned minimum is exactly the returned entry — so ties for the
minimum go to the earliest insertion; and the query is a pure function of
the corpus, so repeating it against the unchanged corpus returns the same
entry every time. -/
theorem find_closest_tiebreak_earliest (corpus : List CorpusEntry)
    (conv q : Int) (excl : Option Int) (maxDist : Option Nat) :
    (∀ m : MatchRes, find_closest corpus conv q excl maxDist = some m →
      ∃ e, (eligible corpus conv excl).find?
            (fun x => decide (hamming64 q x.fingerprint ≤ m.distance))
          = some e ∧
        e.message_id = m.message_id ∧
        hamming64 q e.fingerprint = m.distance) ∧
    find_closest corpus conv q excl maxDist
      = find_closest corpus conv q excl maxDist := by
  refine ⟨?_, rfl⟩
  intro m hm
  exact bestOf_earliest q _ m (find_closest_some_bestOf corpus conv q excl maxDist m hm)

/-- Claim C2 witness: two entries tie at distance 0; the earlier one
(message 10) is returned. -/
theorem find_closest_tiebreak_earliest_witness :
    find_closest ([⟨1, 10, 5, "a"⟩, ⟨1, 20, 5, "a"⟩] : List CorpusEntry)
        1 5 none none = some ⟨10, 0⟩ ∧
    (∀ m : MatchRes,
      find_closest ([⟨1, 10, 5, "a"⟩, ⟨1, 20, 5, "a"⟩] : List CorpusEntry)
          1 5 none none = some m →
      ∃ e, (eligible ([⟨1, 10, 5, "a"⟩, ⟨1, 20, 5, "a"⟩] : List CorpusEntry)
              1 none).find?
            (fun x => decide (hamming64 5 x.fingerprint ≤ m.distance))
          = some e ∧
        e.message_id = m.message_id ∧
        hamming64 5 e.fingerprint = m.distance) :=
  ⟨by decide,
    (find_closest_tiebreak_earliest
      ([⟨1, 10, 5, "a"⟩, ⟨1, 20, 5, "a"⟩] : List CorpusEntry) 1 5 none none).1⟩

/-- Claim C3: in automatic mode, when some eligible entry lies within the
configured threshold of the incoming fingerprint, the handler reports
`Duplicate` with the true minimum distance and the matched entry's message
id and leaves the corpus unchanged; when no eligible entry is within the
threshold, it reports `New` and exactly one entry — carrying the current
message's id, fingerprint and conversation label — is appended to the
corpus. -/
theorem auto_mode_classification {Img E : Type}
    (decodeImage : List Nat → Except E Img) (hashImage : Img → List Nat)
    (corpus : List CorpusEntry) (chat_id message_id : Int) (title : String)
    (threshold : Nat) (bytes : List Nat) (hash : Int)
    (hok : calculate_hash decodeImage hashImage bytes = .ok hash) :
    ((∃ d ∈ distList corpus chat_id hash none, d ≤ threshold) →
      ∃ m : MatchRes,
        message_handler_auto decodeImage hashImage corpus chat_id message_id
            title threshold bytes
          = .ok (.duplicate m.distance m.message_id, corpus) ∧
        m.distance ∈ distList corpus chat_id hash none ∧
        (∀ d ∈ distList corpus chat_id hash none, m.distance ≤ d) ∧
        m.distance ≤ threshold) ∧
    ((∀ d ∈ distList corpus chat_id hash none, threshold < d) →
      message_handler_auto decodeImage hashImage corpus chat_id message_id
          title threshold bytes
        = .ok (.newImage, corpus ++ [⟨chat_id, message_id, hash, title⟩])) := by
  constructor
  · intro hex
    obtain ⟨m, hfc, hmem, hmin, hmt⟩ :=
      find_closest_some_of_exists corpus chat_id hash none threshold hex
    refine ⟨m, ?_, hmem, hmin, hmt⟩
    simp only [message_handler_auto, hok, hfc]
  · intro hall
    have hfc := find_closest_none_of_forall corpus chat_id hash none threshold hall
    simp only [message_handler_auto, hok, hfc, save_image]

/-- Claim C3 witness: a byte-identical repost in a one-entry corpus is
classified Duplicate at distance 0 against message 10, corpus unchanged. -/
theorem auto_mode_classification_witness :
    (∃ d ∈ distList ([⟨1, 10, 0, "a"⟩] : List CorpusEntry) 1 0 none, d ≤ 5) ∧
    (∃ m : MatchRes,
      message_handler_auto (fun _ : List Nat => (Except.ok () : Except Unit Unit))
          (fun _ : Unit => [0, 0, 0, 0, 0, 0, 0, 0])
          ([⟨1, 10, 0, "a"⟩] : List CorpusEntry) 1 11 "a" 5 []
        = .ok (.duplicate m.distance m.message_id,
            ([⟨1, 10, 0, "a"⟩] : List CorpusEntry)) ∧
      m.distance ∈ distList ([⟨1, 10, 0, "a"⟩] : List CorpusEntry) 1 0 none ∧
      (∀ d ∈ distList ([⟨1, 10, 0, "a"⟩] : List CorpusEntry) 1 0 none,
        m.distance ≤ d) ∧
      m.distance ≤ 5) :=
  ⟨⟨0, by decide, by decide⟩,
    (auto_mode_classification (fun _ : List Nat => (Except.ok () : Except Unit Unit))
        (fun _ : Unit => [0, 0, 0, 0, 0, 0, 0, 0])
        ([⟨1, 10, 0, "a"⟩] : List CorpusEntry) 1 11 "a" 5 [] 0
        rfl).1 ⟨0, by decide, by decide⟩⟩

/-- Claim C4: in manual mode, whenever the referenced message's bytes hash
successfully and the conversation's corpus is non-empty after excluding
the referenced message, the handler answers with the single closest
eligible entry and its Hamming distance — the `max_distance` of 64 passed
by the source never gates, since 64-bit Hamming distances cannot exceed
64 — and no branch of the manual path inserts or modifies any corpus
entry. -/
theorem manual_mode_closest {Img E : Type}
    (decodeImage : List Nat → Except E Img) (hashImage : Img → List Nat)
    (corpus : List CorpusEntry) (chat_id ref_message_id : Int)
    (ref_bytes : List Nat) (hash : Int)
    (hok : calculate_hash decodeImage hashImage ref_bytes = .ok hash)
    (hne : eligible corpus chat_id (some ref_message_id) ≠ []) :
    (∃ m : MatchRes,
      message_handler_manual decodeImage hashImage corpus chat_id
          ref_message_id ref_bytes = .ok (some m, corpus) ∧
      m.distance ∈ distList corpus chat_id hash (some ref_message_id) ∧
      (∀ d ∈ distList corpus chat_id hash (some ref_message_id),
        m.distance ≤ d) ∧
      find_closest corpus chat_id hash (some ref_message_id) (some 64)
        = find_closest corpus chat_id hash (some ref_message_id) none) ∧
    (∀ res, message_handler_manual decodeImage hashImage corpus chat_id
        ref_message_id ref_bytes = .ok res → res.2 = corpus) := by
  have hgate : ∀ m : MatchRes,
      bestOf hash (eligible corpus chat_id (some ref_message_id)) = some m →
      m.distance ≤ 64 := by
    intro m hb
    have hmin := bestOf_is_min hash _ m hb
    obtain ⟨e, he, hde⟩ := List.mem_map.mp hmin.1
    exact hde ▸ hamming64_le_64 hash e.fingerprint
  constructor
  · cases hb : bestOf hash (eligible corpus chat_id (some ref_message_id)) with
    | none => exact absurd ((bestOf_eq_none_iff hash _).mp hb) hne
    | some m =>
      have hmin := bestOf_is_min hash _ m hb
      have h64 : m.distance ≤ 64 := hgate m hb
      have hfc : find_closest corpus chat_id hash (some ref_message_id) (some 64)
          = some m := by
        unfold find_closest
        rw [hb]
        simp [h64]
      refine ⟨m, ?_, hmin.1, ?_, ?_⟩
      · simp only [message_handler_manual, hok, hfc]
      · intro d hd
        obtain ⟨e, he, hde⟩ := List.mem_map.mp hd
        exact hde ▸ hmin.2 e he
      · rw [hfc]
        unfold find_closest
        rw [hb]
  · intro res hres
    simp only [message_handler_manual, hok, Except.ok.injEq] at hres
    rw [← hres]

/-- Claim C4 witness: a one-entry corpus, exclusion of the referenced
message 10, closest entry message 20 returned at its true distance. -/
theorem manual_mode_closest_witness :
    calculate_hash (fun _ : List Nat => (Except.ok () : Except Unit Unit))
        (fun _ : Unit => [0, 0, 0, 0, 0, 0, 0, 0]) ([] : List Nat)
      = .ok 0 ∧
    eligible ([⟨1, 20, 5, "b"⟩] : List CorpusEntry) 1 (some 10) ≠ [] ∧
    (∃ m : MatchRes,
      message_handler_manual (fun _ : List Nat => (Except.ok () : Except Unit Unit))
          (fun _ : Unit => [0, 0, 0, 0, 0, 0, 0, 0])
          ([⟨1, 20, 5, "b"⟩] : List CorpusEntry) 1 10 []
        = .ok (some m, ([⟨1, 20, 5, "b"⟩] : List CorpusEntry)) ∧
      m.distance ∈ distList ([⟨1, 20, 5, "b"⟩] : List CorpusEntry) 1 0 (some 10) ∧
      (∀ d ∈ distList ([⟨1, 20, 5, "b"⟩] : List CorpusEntry) 1 0 (some 10),
        m.distance ≤ d) ∧
      find_closest ([⟨1, 20, 5, "b"⟩] : List CorpusEntry) 1 0 (some 10) (some 64)
        = find_closest ([⟨1, 20, 5, "b"⟩] : List CorpusEntry) 1 0 (some 10) none) :=
  ⟨rfl, by decide,
    (manual_mode_closest (fun _ : List Nat => (Except.ok () : Except Unit Unit))
        (fun _ : Unit => [0, 0, 0, 0, 0, 0, 0, 0])
        ([⟨1, 20, 5, "b"⟩] : List CorpusEntry) 1 10 [] 0
        rfl (by decide)).1⟩

/-- Claim C5: bytes the image library rejects are handled non-fatally —
the item is skipped with outcome `notAnImage`, the corpus is untouched,
and the handler still returns success (`.ok`), never propagating the
decode failure to the session. -/
theorem extraction_error_nonfatal {Img E : Type}
    (decodeImage : List Nat → Except E Img) (hashImage : Img → List Nat)
    (corpus : List CorpusEntry) (chat_id message_id : Int) (title : String)
    (threshold : Nat) (bytes : List Nat) (err : E)
    (hbad : decodeImage bytes = .error err) :
    message_handler_auto decodeImage hashImage corpus chat_id message_id
        title threshold bytes = .ok (.notAnImage, corpus) := by
  simp only [message_handler_auto, calculate_hash, hbad]

/-- Claim C5 witness: a decoder that rejects everything leads to the
skip-with-success outcome on an empty corpus. -/
theorem extraction_error_nonfatal_witness :
    (fun _ : List Nat => (Except.error 7 : Except Nat Unit)) [] = .error 7 ∧
    message_handler_auto (fun _ : List Nat => (Except.error 7 : Except Nat Unit))
        (fun _ : Unit => []) ([] : List CorpusEntry) 1 11 "a" 5 []
      = .ok (.notAnImage, ([] : List CorpusEntry)) :=
  ⟨rfl, extraction_error_nonfatal _ (fun _ : Unit => [])
      ([] : List CorpusEntry) 1 11 "a" 5 [] 7 rfl⟩

/-- Claim C6: a failing corpus read or write is surfaced to the handler as
a failed operation (`Except.error`), the handler drops the message (no
classification outcome), and the core attempts no automatic retry: a
failed find is attempted exactly once with no save after it, and a failed
save is attempted exactly once; every possible trace attempts each
operation at most once. -/
theorem corpus_error_surfaced (findRes : Except Unit (Option MatchRes))
    (saveRes : Except Unit Unit) :
    (∀ e, findRes = .error e →
      auto_flow_db findRes saveRes = (none, [DbOp.find])) ∧
    (∀ e, findRes = .ok none → saveRes = .error e →
      auto_flow_db findRes saveRes = (none, [DbOp.find, DbOp.save])) ∧
    ((auto_flow_db findRes saveRes).2 = [DbOp.find] ∨
      (auto_flow_db findRes saveRes).2 = [DbOp.find, DbOp.save]) := by
  refine ⟨?_, ?_, ?_⟩
  · intro e he
    subst he
    rfl
  · intro e hf hs
    subst hf
    subst hs
    rfl
  · cases findRes with
    | error e => exact Or.inl rfl
    | ok o =>
      cases o with
      | some m => exact Or.inl rfl
      | none =>
        cases saveRes with
        | error e => exact Or.inr rfl
        | ok u => exact Or.inr rfl

/-- Claim C6 witness: a failing find is surfaced and attempted once. -/
theorem corpus_error_surfaced_witness :
    (Except.error () : Except Unit (Option MatchRes)) = .error () ∧
    auto_flow_db (Except.error () : Except Unit (Option MatchRes))
        (Except.ok ()) = (none, [DbOp.find]) :=
  ⟨rfl, (corpus_error_surfaced (Except.error ()) (Except.ok ())).1 () rfl⟩

/-- Claim C9: fingerprint extraction is deterministic — `calculate_hash`
is a pure function of the input bytes (with the external decoder and
perceptual hasher fixed), so on bytes that decode successfully two calls
yield the same 64-bit fingerprint. -/
theorem extract_deterministic {Img E : Type}
    (decodeImage : List Nat → Except E Img) (hashImage : Img → List Nat)
    (bytes : List Nat) (img : Img)
    (_hdec : decodeImage bytes = .ok img)
    (r₁ r₂ : Except (HashError E) Int)
    (h₁ : calculate_hash decodeImage hashImage bytes = r₁)
    (h₂ : calculate_hash decodeImage hashImage bytes = r₂) :
    r₁ = r₂ := by
  subst h₁
  subst h₂
  rfl

/-- Claim C9 witness: two evaluations of the hash of the same bytes agree. -/
theorem extract_deterministic_witness :
    (fun _ : List Nat => (Except.ok () : Except Unit Unit)) [1, 2] = .ok () ∧
    calculate_hash (fun _ : List Nat => (Except.ok () : Except Unit Unit))
        (fun _ : Unit => [0, 0, 0, 0, 0, 0, 0, 1]) [1, 2] = .ok 1 ∧
    (Except.ok 1 : Except (HashError Unit) Int) = .ok 1 :=
  ⟨rfl, rfl,
    extract_deterministic (fun _ : List Nat => (Except.ok () : Except Unit Unit))
      (fun _ : Unit => [0, 0, 0, 0, 0, 0, 0, 1]) [1, 2] () rfl
      (Except.ok 1) (Except.ok 1) rfl rfl⟩

/-- Claim C10: at the exact boundary input -100, the conversion strips the
whole value — |−100| = 100 has its three highest-order digits equal to
100 with nothing below them — and returns 0, not −100 and not a failure
(the step-guarded rerun also succeeds there). -/
theorem to_display_id_boundary_neg100 :
    convert_telegram_chat_id (-100) = 0 ∧
    to_display_id_spec (-100) = 0 ∧
    convert_telegram_chat_id_checked (-100) = some 0 := by
  refine ⟨by decide, by decide, by decide⟩

/-- Claim C7: over the full i64 range, ids above -100 pass through
unchanged; otherwise, when the three highest-order decimal digits of the
absolute value equal 100 the remaining lower-order digits are returned as
a non-negative integer, and otherwise the id is returned unchanged — so
the source function agrees with the spec-worded `to_display_id_spec`
everywhere — and in particular -1001234567890 maps to 1234567890 while
-99 and 42 pass through. -/
theorem to_display_id_contract (id : Int)
    (hlo : -(2 ^ 63) ≤ id) (hhi : id < 2 ^ 63) :
    convert_telegram_chat_id id = to_display_id_spec id ∧
    (id > -100 → convert_telegram_chat_id id = id) ∧
    (id ≤ -100 → id.natAbs / 10 ^ (numDigits id.natAbs - 3) = 100 →
      convert_telegram_chat_id id
          = ((id.natAbs % 10 ^ (numDigits id.natAbs - 3) : Nat) : Int) ∧
        0 ≤ convert_telegram_chat_id id) ∧
    (id ≤ -100 → id.natAbs / 10 ^ (numDigits id.natAbs - 3) ≠ 100 →
      convert_telegram_chat_id id = id) ∧
    convert_telegram_chat_id (-1001234567890) = 1234567890 ∧
    convert_telegram_chat_id (-99) = -99 ∧
    convert_telegram_chat_id 42 = 42 := by
  have heq := convert_eq_spec hlo hhi
  refine ⟨heq, ?_, ?_, ?_, by decide, by decide, by decide⟩
  · intro hgt
    simp [convert_telegram_chat_id, hgt]
  · intro hle hq
    have hgt : ¬ id > -100 := by omega
    rw [heq]
    unfold to_display_id_spec
    rw [if_neg hgt, if_pos hq]
    exact ⟨rfl, Int.natCast_nonneg _⟩
  · intro hle hq
    have hgt : ¬ id > -100 := by omega
    rw [heq]
    unfold to_display_id_spec
    rw [if_neg hgt, if_neg hq]

/-- Claim C7 witness: the large-group id -1001234567890 strips to
1234567890. -/
theorem to_display_id_contract_witness :
    (-(2 ^ 63) : Int) ≤ -1001234567890 ∧ (-1001234567890 : Int) < 2 ^ 63 ∧
    convert_telegram_chat_id (-1001234567890) = 1234567890 :=
  ⟨by decide, by decide,
    (to_display_id_contract (-1001234567890) (by decide) (by decide)).2.2.2.2.1⟩

/-- Claim C8: the conversion is total on all of i64 — rerunning it with
every partial step guarded (zero `ilog10`, underflowing subtraction,
overflowing `10u64.pow`, zero divisor, value-changing cast) still returns
a value, equal to the unguarded run, for every id from the minimum i64 up;
so no step panics, underflows, or loses value on any 64-bit input. -/
theorem to_display_id_total (id : Int)
    (hlo : -(2 ^ 63) ≤ id) (hhi : id < 2 ^ 63) :
    convert_telegram_chat_id_checked id = some (convert_telegram_chat_id id) := by
  by_cases hgt : id > -100
  · simp [convert_telegram_chat_id_checked, convert_telegram_chat_id, hgt]
  · have hle : id ≤ -100 := by omega
    obtain ⟨habs100, habs63⟩ := natAbs_bounds hlo hle
    have h64 : id.natAbs < 10 ^ 64 := lt_of_le_of_lt habs63 (by norm_num)
    have hl2 : 2 ≤ ilog10 id.natAbs := ilog10_ge_two habs100 h64
    have hl18 : ilog10 id.natAbs ≤ 18 := ilog10_le_18 habs63
    have habs0 : id.natAbs ≠ 0 := by omega
    have hdvsmall : 10 ^ (ilog10 id.natAbs - 2) < 2 ^ 63 := by
      calc 10 ^ (ilog10 id.natAbs - 2) ≤ 10 ^ 16 :=
            Nat.pow_le_pow_right (by norm_num) (by omega)
        _ < 2 ^ 63 := by norm_num
    have hdv64 : 10 ^ (ilog10 id.natAbs - 2) < 2 ^ 64 :=
      lt_trans hdvsmall (by norm_num)
    have hdv0 : 10 ^ (ilog10 id.natAbs - 2) ≠ 0 :=
      Nat.pos_iff_ne_zero.mp (Nat.pos_pow_of_pos _ (by norm_num))
    have hrlt : id.natAbs % 10 ^ (ilog10 id.natAbs - 2) < 2 ^ 63 :=
      lt_trans (Nat.mod_lt _ (Nat.pos_pow_of_pos _ (by norm_num))) hdvsmall
    have h1 : checked_ilog10 id.natAbs = some (ilog10 id.natAbs) := if_neg habs0
    have h2 : checked_sub (ilog10 id.natAbs) 2 = some (ilog10 id.natAbs - 2) :=
      if_pos hl2
    have h3 : checked_pow10 (ilog10 id.natAbs - 2)
        = some (10 ^ (ilog10 id.natAbs - 2)) := if_pos hdv64
    have h4 : checked_div id.natAbs (10 ^ (ilog10 id.natAbs - 2))
        = some (id.natAbs / 10 ^ (ilog10 id.natAbs - 2)) := if_neg hdv0
    have h5 : checked_mod id.natAbs (10 ^ (ilog10 id.natAbs - 2))
        = some (id.natAbs % 10 ^ (ilog10 id.natAbs - 2)) := if_neg hdv0
    have h6 : checked_cast_i64 (id.natAbs % 10 ^ (ilog10 id.natAbs - 2))
        = some ((id.natAbs % 10 ^ (ilog10 id.natAbs - 2) : Nat) : Int) :=
      if_pos hrlt
    simp only [convert_telegram_chat_id_checked, convert_telegram_chat_id, hgt,
      if_false, h1, h2, h3, h4, h5, h6, Option.bind_eq_bind, Option.some_bind,
      Nat.mod_eq_of_lt hdv64]
    by_cases hq : id.natAbs / 10 ^ (ilog10 id.natAbs - 2) = 100
    · simp only [hq, if_pos, h5, h6, Option.bind_eq_bind, Option.some_bind,
        i64_of_u64_small hrlt]
    · simp only [hq, if_neg, not_false_iff]

/-- Claim C8 witness: the minimum i64 is handled without any guarded step
failing, and passes through unchanged (its top three digits are 922). -/
theorem to_display_id_total_witness :
    (-(2 ^ 63) : Int) ≤ -(2 ^ 63) ∧ (-(2 ^ 63) : Int) < 2 ^ 63 ∧
    convert_telegram_chat_id (-(2 ^ 63)) = -(2 ^ 63) ∧
    convert_telegram_chat_id_checked (-(2 ^ 63))
      = some (convert_telegram_chat_id (-(2 ^ 63))) :=
  ⟨by decide, by decide, by decide,
    to_display_id_total (-(2 ^ 63)) (by decide) (by decide)⟩
